import Mathlib

set_option autoImplicit false

/-!
Verification of the multi-agent email-support pipeline
(`agents.py`, `call_gpt.py`, `db.py`, `api/email_session.py`).

The language model and the concrete HTTP-backed tools are external
collaborators; we embed them as oracles that the theorems quantify over:
* per-agent model responses (`ModelResponse`, indexed by tool round),
* the tool backends (`String → JObj → Except String JObj`, where
  `Except.error e` models a Python exception carrying message `e`;
  the `Tool` protocol declares that every tool's `run` returns a dict),
* the JSON decoder used for model-supplied argument strings
  (`String → Option JObj`; `none` models a `json.JSONDecodeError`).

Database rows (`db.py`) are modelled as in-memory logs in insertion
order, which coincides with the `ORDER BY id` reads: SQLite row ids are
assigned in insertion order.  The state is per session; distinct
sessions share nothing.
-/

/-- JSON values, as produced by `json.loads` / consumed by `json.dumps`.
Numbers are modelled as integers (no claim involves numeric payloads). -/
inductive JVal where
  | null : JVal
  | bool : Bool → JVal
  | num : Int → JVal
  | str : String → JVal
  | arr : List JVal → JVal
  | obj : List (String × JVal) → JVal

/-- A JSON object: the `Dict[str, Any]` of the Python sources. -/
abbrev JObj := List (String × JVal)

/-- First-match association lookup, modelling Python's `dict.get(key)`
(`json.loads` produces unique keys, so first match is the match). -/
def JObj.get (o : JObj) (key : String) : Option JVal :=
  (o.find? (fun kv => kv.1 = key)).map (fun kv => kv.2)

/-- `dict.get(key, default)` for string defaults. -/
def JObj.getD (o : JObj) (key : String) (dflt : JVal) : JVal :=
  (JObj.get o key).getD dflt

/-- Functional update `d[key] = v` (replace the binding if present,
else append), modelling Python dict assignment. -/
def JObj.set (o : JObj) (key : String) (v : JVal) : JObj :=
  if (o.find? (fun kv => kv.1 = key)).isSome then
    o.map (fun kv => if kv.1 = key then (key, v) else kv)
  else o ++ [(key, v)]

mutual

/-- `json.dumps` with the default separators, as used for persisting
tool inputs/outputs and rendering `actions_taken` entries.  String
escaping is not modelled (no claim depends on it). -/
def JVal.dumps : JVal → String
  | JVal.null => "null"
  | JVal.bool b => if b then "true" else "false"
  | JVal.num n => toString n
  | JVal.str s => "\"" ++ s ++ "\""
  | JVal.arr xs => "[" ++ JVal.dumpsElems xs ++ "]"
  | JVal.obj fs => "\x7b" ++ JVal.dumpsFields fs ++ "\x7d"

/-- Comma-separated `json.dumps` renderings of array elements. -/
def JVal.dumpsElems : List JVal → String
  | [] => ""
  | [x] => JVal.dumps x
  | x :: y :: xs => JVal.dumps x ++ ", " ++ JVal.dumpsElems (y :: xs)

/-- Comma-separated `json.dumps` renderings of object fields. -/
def JVal.dumpsFields : List (String × JVal) → String
  | [] => ""
  | [(k, v)] => "\"" ++ k ++ "\": " ++ JVal.dumps v
  | (k, v) :: f :: fs =>
      "\"" ++ k ++ "\": " ++ JVal.dumps v ++ ", " ++ JVal.dumpsFields (f :: fs)

end

mutual

/-- Python's `str()` on a decoded JSON value, as used by the f-string
interpolations in `email_session.py` (e.g. the escalation reason). -/
def JVal.pyStr : JVal → String
  | JVal.null => "None"
  | JVal.bool b => if b then "True" else "False"
  | JVal.num n => toString n
  | JVal.str s => s
  | JVal.arr xs => "[" ++ JVal.pyReprElems xs ++ "]"
  | JVal.obj fs => "\x7b" ++ JVal.pyReprFields fs ++ "\x7d"

/-- Python's `repr()` on a decoded JSON value (nested rendering). -/
def JVal.pyRepr : JVal → String
  | JVal.null => "None"
  | JVal.bool b => if b then "True" else "False"
  | JVal.num n => toString n
  | JVal.str s => "'" ++ s ++ "'"
  | JVal.arr xs => "[" ++ JVal.pyReprElems xs ++ "]"
  | JVal.obj fs => "\x7b" ++ JVal.pyReprFields fs ++ "\x7d"

/-- Comma-separated `repr()` renderings of list elements. -/
def JVal.pyReprElems : List JVal → String
  | [] => ""
  | [x] => JVal.pyRepr x
  | x :: y :: xs => JVal.pyRepr x ++ ", " ++ JVal.pyReprElems (y :: xs)

/-- Comma-separated `repr()` renderings of dict items. -/
def JVal.pyReprFields : List (String × JVal) → String
  | [] => ""
  | [(k, v)] => "'" ++ k ++ "': " ++ JVal.pyRepr v
  | (k, v) :: f :: fs =>
      "'" ++ k ++ "': " ++ JVal.pyRepr v ++ ", " ++ JVal.pyReprFields (f :: fs)

end

/-- One row of the `session_messages` table (`db.py`): messages are
read back `ORDER BY id`, i.e. in insertion order. -/
structure MsgRow where
  role : String
  content : String
  sender : String
deriving DecidableEq

/-- One row of the `tool_calls` table: `db.add_tool_call` persists the
name, the JSON input and the parsed JSON output. -/
structure ToolCallRow where
  tool_name : String
  tool_input : JObj
  tool_output : JObj

/-- One row of the `escalations` table (`db.add_escalation`). -/
structure EscalationRow where
  summary_json : JObj
  reason : JVal

/-- The per-session slice of the SQLite database: the session row's
`escalated` flag plus the three per-session logs, each in `ORDER BY id`
(= insertion) order. -/
structure DBState where
  escalated : Bool
  messages : List MsgRow
  toolCalls : List ToolCallRow
  escalations : List EscalationRow

/-- `db.add_message`: append a message row. -/
def DBState.addMessage (st : DBState) (role content sender : String) : DBState :=
  { st with messages := st.messages ++ [⟨role, content, sender⟩] }

/-- The message log after `db.add_message`. -/
lemma DBState.addMessage_messages (st : DBState) (role content sender : String) :
    (DBState.addMessage st role content sender).messages =
      st.messages ++ [⟨role, content, sender⟩] := rfl

/-- The customer identity fields carried by `EmailSession`. -/
structure Customer where
  customer_email : String
  first_name : String
  last_name : String
  shopify_customer_id : String

/-- A tool backend: the behaviour of the eight concrete tools'
`run(**kwargs)` (HTTP calls in `api/tools.py`).  `Except.error e`
models a raised exception with message `str(e) = e`; per the `Tool`
protocol a normal return is a dict. -/
abbrev ToolBackend := String → JObj → Except String JObj

/-- The names registered in `EmailSession._build_tools`. -/
def knownToolNames : List String :=
  [ "shopify_get_order_details"
  , "shopify_get_customer_orders"
  , "shopify_refund_order"
  , "shopify_create_store_credit"
  , "skio_get_subscription_status"
  , "skio_pause_subscription"
  , "skio_cancel_subscription"
  , "shopify_get_related_knowledge_source" ]

/-- The test `kwargs.get("after") is None or kwargs.get("after") == "null"`
(`dict.get` returns `None` both for a missing key and for a null value). -/
def isFirstPageCursor : Option JVal → Bool
  | none => true
  | some JVal.null => true
  | some (JVal.str s) => s = "null"
  | some _ => false

/-- The `after` normalisation in `EmailSession._tool_executor`: for
`shopify_get_customer_orders`, a missing/None/"null" cursor is
rewritten to the string "null". -/
def normalizeKwargs (tool_name : String) (arguments : JObj) : JObj :=
  if tool_name = "shopify_get_customer_orders" ∧
      isFirstPageCursor (JObj.get arguments "after") = true then
    JObj.set arguments "after" (JVal.str "null")
  else arguments

/-- `EmailSession._tool_executor`: dispatch a tool call.  `escalate` is
intercepted before generic dispatch and flips the session's escalation
state; an unknown name yields a structured failure payload; a backend
exception is caught and converted to a failure payload.  Returns the
new DB state and the (JSON) payload the model will see. -/
def toolExecutorRun (c : Customer) (backend : ToolBackend)
    (tool_name : String) (arguments : JObj) (st : DBState) : DBState × JObj :=
  if tool_name = "escalate" then
    let reason := JObj.getD arguments "reason" (JVal.str "Not specified")
    let summary := JObj.getD arguments "summary_for_team" (JVal.str "")
    let st1 := { st with escalated := true }
    let st2 := { st1 with
      escalations := st1.escalations ++
        [⟨[ ("reason", reason)
          , ("summary_for_team", summary)
          , ("customer_email", JVal.str c.customer_email)
          , ("customer_name", JVal.str (c.first_name ++ " " ++ c.last_name)) ], reason⟩] }
    (st2, [ ("success", JVal.bool true)
          , ("escalated", JVal.bool true)
          , ("message", JVal.str "Session escalated. No further automatic replies.") ])
  else if tool_name ∉ knownToolNames then
    (st, [("success", JVal.bool false), ("error", JVal.str ("Unknown tool: " ++ tool_name))])
  else
    let kwargs := normalizeKwargs tool_name arguments
    match backend tool_name kwargs with
    | Except.ok result => (st, result)
    | Except.error e => (st, [("success", JVal.bool false), ("error", JVal.str e)])

/-- The `executor` closure built inside `EmailSession.reply`: run the
session tool executor, then persist the call via `db.add_tool_call`
(the payload always round-trips through `json.dumps`/`json.loads`
since it is a dict). -/
def sessionExec (c : Customer) (backend : ToolBackend)
    (name : String) (args : JObj) (st : DBState) : DBState × JObj :=
  let (st1, out) := toolExecutorRun c backend name args st
  ({ st1 with toolCalls := st1.toolCalls ++ [⟨name, args, out⟩] }, out)

/-- One entry of the gateway's `all_tool_calls` accumulator in
`call_gpt_with_tools`: the decoded arguments and the executor's
(JSON) result. -/
structure ToolCallRecord where
  name : String
  arguments : JObj
  result : JObj

/-- The `Message` dict of `agents.py`: role, content, sender, plus the
`tool_calls` extra field attached by `LLMAgent.act`. -/
structure Message where
  role : String
  content : String
  sender : String
  toolCalls : List ToolCallRecord := []

/-- One tool call as requested by the model inside one response:
a tool name plus the raw (undecoded) arguments string. -/
structure RawToolCall where
  name : String
  argumentsRaw : String

/-- One model response inside the `call_gpt_with_tools` loop: either a
final text (`toolCalls = []`, mirroring a falsy `msg.tool_calls`) or a
batch of requested tool calls.  `content` is `msg.content or ""`. -/
structure ModelResponse where
  content : String := ""
  toolCalls : List RawToolCall := []

/-- The defensive argument decoding in `call_gpt_with_tools`:
`json.loads(tc.function.arguments) if tc.function.arguments else {}`,
with a `JSONDecodeError` (modelled by `decode raw = none`) recovered
as the empty mapping. -/
def decodeArgs (decode : String → Option JObj) (raw : String) : JObj :=
  if raw = "" then [] else (decode raw).getD []

/-- Execute the tool calls of one model response in order, threading
the executor state and appending one `ToolCallRecord` per call to the
`all_tool_calls` accumulator. -/
def execToolCalls {σ : Type} (exec : String → JObj → σ → σ × JObj)
    (decode : String → Option JObj) :
    List RawToolCall → σ → List ToolCallRecord → σ × List ToolCallRecord
  | [], s, acc => (s, acc)
  | tc :: rest, s, acc =>
      let args := decodeArgs decode tc.argumentsRaw
      let (s1, out) := exec tc.name args s
      execToolCalls exec decode rest s1 (acc ++ [⟨tc.name, args, out⟩])

/-- The result dict of `call_gpt_with_tools`: final text, accumulated
tool-call records, and the round-limit error field when present.
(Token usage is accumulated for observability only and not modelled.) -/
structure GatewayResult where
  content : String
  tool_calls : List ToolCallRecord
  error : Option String := none

/-- The `for _ in range(max_tool_rounds)` loop of `call_gpt_with_tools`:
each iteration consumes one model response (the oracle `resps`, indexed
by round number `i`); a response with tool calls executes them and
continues, a content-only response returns.  Exhausted fuel yields the
round-limit result.  The synthetic assistant/tool messages appended to
`current_messages` feed only the model and are not represented. -/
def callGptLoop {σ : Type} (exec : String → JObj → σ → σ × JObj)
    (decode : String → Option JObj) (resps : Nat → ModelResponse) :
    Nat → Nat → List ToolCallRecord → σ → σ × GatewayResult
  | 0, _, acc, s =>
      (s, ⟨"", acc, some "Max tool rounds reached without final response."⟩)
  | fuel + 1, i, acc, s =>
      match (resps i).toolCalls with
      | [] => (s, ⟨(resps i).content, acc, none⟩)
      | tc :: tcs =>
          let (s1, acc1) := execToolCalls exec decode (tc :: tcs) s acc
          callGptLoop exec decode resps fuel (i + 1) acc1 s1

/-- `call_gpt_with_tools` (`call_gpt.py`): run the tool-calling loop
from an empty accumulator. -/
def call_gpt_with_tools {σ : Type} (exec : String → JObj → σ → σ × JObj)
    (decode : String → Option JObj) (resps : Nat → ModelResponse)
    (max_tool_rounds : Nat) (s : σ) : σ × GatewayResult :=
  callGptLoop exec decode resps max_tool_rounds 0 [] s

/-- A collector entry: a gateway `ToolCallRecord` copied and tagged
with the acting agent's name (`LLMAgent.act`). -/
structure TaggedToolCall where
  name : String
  arguments : JObj
  result : JObj
  agent : String

/-- The mutable state threaded through one `reply` pipeline run: the
session's DB slice plus the in-memory `tool_call_collector`. -/
structure RunState where
  db : DBState
  collector : List TaggedToolCall

/-- `LLMAgent.act`: invoke the gateway (5 tool rounds, the production
setting), tag and collect the turn's tool calls, and return either a
new agent message or silence.  The re-rendering of the shared history
into OpenAI format feeds only the black-box model and is therefore not
represented; the model's behaviour is the oracle `resps`. -/
def llmAgentAct (agentName : String) (resps : Nat → ModelResponse)
    (decode : String → Option JObj) (backend : ToolBackend) (c : Customer) :
    List Message → RunState → RunState × Option Message :=
  fun _history rs =>
    let g := (call_gpt_with_tools (sessionExec c backend) decode resps 5 rs.db).2
    let tagged := g.tool_calls.map
      (fun tc => TaggedToolCall.mk tc.name tc.arguments tc.result agentName)
    let rs1 : RunState :=
      ⟨(call_gpt_with_tools (sessionExec c backend) decode resps 5 rs.db).1,
       rs.collector ++ tagged⟩
    if g.content = "" ∧ g.tool_calls.isEmpty = true then (rs1, none)
    else
      (rs1, some ⟨"agent",
        if g.content = "" then "(no text output)" else g.content,
        agentName, g.tool_calls⟩)

/-- `MultiAgentSystem.system_prompt` default. -/
def defaultSystemPrompt : String :=
  "You are a team of agents collaborating to assist the user."

/-- An agent for the coordinator: full shared history in, optional
message out, threading the shared mutable state. -/
abbrev AgentF (σ : Type) := List Message → σ → σ × Option Message

/-- One round of `MultiAgentSystem.run`'s inner loop: each agent in
declared order sees the accumulated history (including messages added
earlier in the same round) and may append one message; the Bool is
`any_response`. -/
def runAgentsOnce {σ : Type} :
    List (AgentF σ) → List Message → σ → σ × List Message × Bool
  | [], msgs, s => (s, msgs, false)
  | a :: rest, msgs, s =>
      match a msgs s with
      | (s1, some m) =>
          let (s2, msgs2, _any) := runAgentsOnce rest (msgs ++ [m]) s1
          (s2, msgs2, true)
      | (s1, none) => runAgentsOnce rest msgs s1

/-- The `for _ in range(max_turns)` loop of `MultiAgentSystem.run`:
run rounds until the fuel is exhausted or a round produces no
response. -/
def masLoop {σ : Type} (agents : List (AgentF σ)) :
    Nat → List Message → σ → σ × List Message
  | 0, msgs, s => (s, msgs)
  | n + 1, msgs, s =>
      let (s1, msgs1, any) := runAgentsOnce agents msgs s
      if any then masLoop agents n msgs1 s1 else (s1, msgs1)

/-- The seeded system message of `MultiAgentSystem.run`. -/
def systemSeedMessage : Message := ⟨"system", defaultSystemPrompt, "system", []⟩

/-- The seeded user message of `MultiAgentSystem.run`. -/
def userSeedMessage (user_message : String) : Message :=
  ⟨"user", user_message, "user", []⟩

/-- `MultiAgentSystem.run`: seed the shared history with the system
message, the optional prior history and the new user message, then run
the round loop. -/
def masRun {σ : Type} (agents : List (AgentF σ)) (user_message : String)
    (max_turns : Nat) (initial_messages : List Message) (s : σ) :
    σ × List Message :=
  masLoop agents max_turns
    (systemSeedMessage :: initial_messages ++ [userSeedMessage user_message]) s

/-- The observable trace returned by one `reply` call
(`SessionTrace` in `email_session.py`). -/
structure SessionTrace where
  final_message : String
  tool_calls : List TaggedToolCall := []
  actions_taken : List String := []

/-- The model/tool behaviour during one `reply` pipeline run: one
response oracle per agent turn (indexed by gateway round), the tool
backends and the JSON decoder. -/
structure RoundOracle where
  router : Nat → ModelResponse
  policy : Nat → ModelResponse
  executor : Nat → ModelResponse
  backend : ToolBackend
  decode : String → Option JObj

/-- The prior-history reconstruction in `reply`: persisted rows
(excluding the just-added customer message) mapped to coordinator
messages; `user` rows become customer messages, `assistant` rows
become generic agent messages, anything else is dropped. -/
def initialFromRows (rows : List MsgRow) : List Message :=
  rows.filterMap (fun r =>
    if r.role = "user" then some ⟨"user", r.content, "customer", []⟩
    else if r.role = "assistant" then some ⟨"agent", r.content, "agent", []⟩
    else none)

/-- The three pipeline agents built by `reply`, in declared order
Router → Policy → Executor, sharing one executor closure and one
collector.  (The per-agent tool catalogs and system prompts feed only
the black-box model.) -/
def replyAgents (o : RoundOracle) (c : Customer) : List (AgentF RunState) :=
  [ llmAgentAct "RouterAgent" o.router o.decode o.backend c
  , llmAgentAct "PolicyAgent" o.policy o.decode o.backend c
  , llmAgentAct "ExecutorAgent" o.executor o.decode o.backend c ]

/-- The single coordinator round run by `reply` (`max_turns=1`),
starting from the DB state that already holds the new customer
message and an empty collector. -/
def replyRound (o : RoundOracle) (c : Customer) (customer_message : String)
    (st1 : DBState) : RunState × List Message :=
  masRun (replyAgents o c) customer_message 1
    (initialFromRows st1.messages.dropLast) ⟨st1, []⟩

/-- The `for m in reversed(history)` scan of `reply`: walk the
reversed round history; an Executor message with truthy content is
recorded, and the scan stops at the first non-placeholder one. -/
def scanForExecutorContent : List Message → String → String
  | [], acc => acc
  | m :: rest, acc =>
      if m.sender = "ExecutorAgent" ∧ m.content ≠ "" then
        if m.content ≠ "(no text output)" then m.content
        else scanForExecutorContent rest m.content
      else scanForExecutorContent rest acc

/-- The non-escalated final-message selection of `reply`: the scan
result, else the last message's content, else (for an empty history)
the generic apology. -/
def selectFinalContent (history : List Message) : String :=
  let content := scanForExecutorContent history.reverse ""
  if content = "" then
    match history.getLast? with
    | some m => m.content
    | none => "I apologize, I couldn't process that. Please try again."
  else content

/-- The canned customer-facing acknowledgment persisted by `reply`
when the session escalated during the round. -/
def escalationAck : String :=
  "Thank you for reaching out. We've escalated your request to our team. A team member will follow up with you shortly."

/-- `actions_taken` of the escalated path: `"escalated_to_human"`
followed by one `escalate: <reason>` entry per escalate call. -/
def escalateActions (tool_calls : List TaggedToolCall) : List String :=
  "escalated_to_human" ::
    (tool_calls.filter (fun tc => tc.name = "escalate")).map
      (fun tc => "escalate: " ++ (JObj.getD tc.arguments "reason" (JVal.str "")).pyStr)

/-- `actions_taken` of the non-escalated path: one
`<agent>/<name>(<json args>)` entry per non-escalate call with a
truthy name, in call order. -/
def nonEscalateActions (tool_calls : List TaggedToolCall) : List String :=
  tool_calls.filterMap (fun tc =>
    if tc.name ≠ "" ∧ tc.name ≠ "escalate" then
      some (tc.agent ++ "/" ++ tc.name ++ "(" ++ JVal.dumps (JVal.obj tc.arguments) ++ ")")
    else none)

/-- `EmailSession.reply`: short-circuit when already escalated;
otherwise persist the customer message, run the Router → Policy →
Executor round, then branch on the (possibly just flipped) escalation
state to assemble and persist the outcome. -/
def reply (o : RoundOracle) (c : Customer) (customer_message : String)
    (st : DBState) : DBState × Option SessionTrace :=
  if st.escalated then (st, none)
  else
    let st1 := DBState.addMessage st "user" customer_message "customer"
    let rs := (replyRound o c customer_message st1).1
    let history := (replyRound o c customer_message st1).2
    if rs.db.escalated then
      let db2 := DBState.addMessage rs.db "assistant" escalationAck "agent"
      (db2, some ⟨escalationAck, rs.collector, escalateActions rs.collector⟩)
    else
      let content := selectFinalContent history
      let db2 := DBState.addMessage rs.db "assistant" content "agent"
      (db2, some ⟨content, rs.collector, nonEscalateActions rs.collector⟩)

/-- A sequence of `reply` calls on one session, each with its own
model/tool behaviour, threading the session state. -/
def replyMany (c : Customer) :
    List (RoundOracle × String) → DBState → DBState × List (Option SessionTrace)
  | [], st => (st, [])
  | (o, msg) :: rest, st =>
      let (st1, t) := reply o c msg st
      let (st2, ts) := replyMany c rest st1
      (st2, t :: ts)

/-- The dict returned by `EmailSession.get_trace`. -/
structure TraceView where
  escalated : Bool
  messages : List MsgRow
  tool_calls : List ToolCallRow

/-- `EmailSession.get_trace`: re-read the session row, the message log
and the tool-call log and assemble the observable trace.  `db.init_db`
only issues `CREATE TABLE IF NOT EXISTS` statements, a no-op on the
existing database, so the state component is unchanged; the
dumps/loads round-trip of tool rows is the identity. -/
def get_trace (st : DBState) : DBState × TraceView :=
  (st, ⟨st.escalated,
        st.messages.map (fun m => ⟨m.role, m.content, m.sender⟩),
        st.toolCalls⟩)

/-- An already-escalated session short-circuits: no state change, no trace. -/
lemma reply_escalated_eq (o : RoundOracle) (c : Customer) (msg : String)
    (st : DBState) (h : st.escalated = true) : reply o c msg st = (st, none) := by
  unfold reply
  simp [h]

/-- Claim C1: once a session's `escalated` flag is true, every
subsequent `reply` call — whatever the message and whatever the
model/tool behaviour — returns no trace and leaves the session state
(in particular the persisted message log) unchanged. -/
theorem reply_none_after_escalation (c : Customer)
    (calls : List (RoundOracle × String)) (st : DBState)
    (h : st.escalated = true) :
    (replyMany c calls st).1 = st ∧
      ∀ t ∈ (replyMany c calls st).2, t = none := by
  induction calls generalizing st with
  | nil =>
      refine ⟨rfl, ?_⟩
      intro t ht
      simp [replyMany] at ht
  | cons p rest ih =>
      obtain ⟨o, msg⟩ := p
      have hr := reply_escalated_eq o c msg st h
      obtain ⟨ih1, ih2⟩ := ih st h
      constructor
      · simp only [replyMany, hr]
        exact ih1
      · intro t ht
        simp only [replyMany, hr] at ht
        rcases List.mem_cons.mp ht with h1 | h1
        · exact h1
        · exact ih2 t h1

/-- A sample customer used as concrete input in witnesses. -/
def sampleCustomer : Customer :=
  ⟨"test@example.com", "Test", "User", "gid://shopify/Customer/456"⟩

/-- A trivial behaviour: the model always answers with empty content
and no tool calls, the backends succeed with an empty dict, and JSON
decoding always fails. -/
def trivialOracle : RoundOracle :=
  ⟨fun _ => {}, fun _ => {}, fun _ => {}, fun _ _ => Except.ok [], fun _ => none⟩

/-- Witness for C1 at a concrete escalated state and two further calls. -/
theorem reply_none_after_escalation_witness :
    (DBState.mk true [] [] []).escalated = true ∧
      ((replyMany sampleCustomer
        [(trivialOracle, "Hello? Can you help?"), (trivialOracle, "Anyone?")]
        (DBState.mk true [] [] [])).1 = DBState.mk true [] [] [] ∧
      ∀ t ∈ (replyMany sampleCustomer
        [(trivialOracle, "Hello? Can you help?"), (trivialOracle, "Anyone?")]
        (DBState.mk true [] [] [])).2, t = none) :=
  ⟨rfl, reply_none_after_escalation sampleCustomer _ _ rfl⟩

/-- Claim C9: `get_trace` is a read-only reconstruction (its
`init_db` call only re-issues `CREATE TABLE IF NOT EXISTS`), so two
consecutive calls with no intervening `reply` agree on `messages`,
`tool_calls` and `escalated`, and leave the state as it was. -/
theorem get_trace_idempotent (st : DBState) :
    ((get_trace (get_trace st).1).2).messages = ((get_trace st).2).messages ∧
    ((get_trace (get_trace st).1).2).tool_calls = ((get_trace st).2).tool_calls ∧
    ((get_trace (get_trace st).1).2).escalated = ((get_trace st).2).escalated ∧
    (get_trace st).1 = st :=
  ⟨rfl, rfl, rfl, rfl⟩

/-- One coordinator round only appends to the shared history. -/
lemma runAgentsOnce_append {σ : Type} (agents : List (AgentF σ)) :
    ∀ (msgs : List Message) (s : σ),
      ∃ extra, ((runAgentsOnce agents msgs s).2).1 = msgs ++ extra := by
  induction agents with
  | nil =>
      intro msgs s
      exact ⟨[], by simp [runAgentsOnce]⟩
  | cons a rest ih =>
      intro msgs s
      unfold runAgentsOnce
      rcases h : a msgs s with ⟨s1, r⟩
      cases r with
      | none =>
          obtain ⟨extra, he⟩ := ih msgs s1
          exact ⟨extra, by simpa using he⟩
      | some m =>
          obtain ⟨extra, he⟩ := ih (msgs ++ [m]) s1
          refine ⟨m :: extra, ?_⟩
          simpa [List.append_assoc] using he

/-- The round loop of `MultiAgentSystem.run` only appends. -/
lemma masLoop_append {σ : Type} (agents : List (AgentF σ)) :
    ∀ (n : Nat) (msgs : List Message) (s : σ),
      ∃ extra, (masLoop agents n msgs s).2 = msgs ++ extra := by
  intro n
  induction n with
  | zero =>
      intro msgs s
      exact ⟨[], by simp [masLoop]⟩
  | succ n ih =>
      intro msgs s
      unfold masLoop
      rcases h : runAgentsOnce agents msgs s with ⟨s1, msgs1, any⟩
      have h1 : msgs1 = ((runAgentsOnce agents msgs s).2).1 := by rw [h]
      obtain ⟨e1, he1⟩ := runAgentsOnce_append agents msgs s
      cases any with
      | false => exact ⟨e1, by simp [h1, he1]⟩
      | true =>
          obtain ⟨e2, he2⟩ := ih msgs1 s1
          rw [h1, he1] at he2
          refine ⟨e1 ++ e2, ?_⟩
          simp [h1, he1, he2, List.append_assoc]

/-- Claim C10: `MultiAgentSystem.run` always returns the seeded system
message first, then the prior-history seed, then the seed user
message, with any agent responses strictly after them — even when
every agent stays silent, so the history always contains at least the
system and user messages. -/
theorem mas_run_seeded_shape {σ : Type} (agents : List (AgentF σ))
    (user_message : String) (max_turns : Nat)
    (initial_messages : List Message) (s : σ) :
    ∃ responses,
      (masRun agents user_message max_turns initial_messages s).2 =
        systemSeedMessage ::
          (initial_messages ++ userSeedMessage user_message :: responses) := by
  obtain ⟨extra, he⟩ := masLoop_append agents max_turns
    (systemSeedMessage :: initial_messages ++ [userSeedMessage user_message]) s
  refine ⟨extra, ?_⟩
  simpa [masRun, List.append_assoc] using he

/-- Claim C5: the session tool executor converts failures to
structured payloads instead of raising: an unknown tool name yields
`\x7bsuccess: false, error: "Unknown tool: <name>"\x7d` with no state
change, and an exception raised by a concrete tool's `run` is caught
and converted to `\x7bsuccess: false, error: <message>\x7d` (the
executor is a total function, so no exception ever aborts the
enclosing round). -/
theorem tool_executor_structured_failures (c : Customer)
    (backend : ToolBackend) (tool_name : String) (arguments : JObj)
    (st : DBState) (hesc : tool_name ≠ "escalate") :
    (tool_name ∉ knownToolNames →
      toolExecutorRun c backend tool_name arguments st =
        (st, [("success", JVal.bool false),
              ("error", JVal.str ("Unknown tool: " ++ tool_name))])) ∧
    (∀ e, tool_name ∈ knownToolNames →
      backend tool_name (normalizeKwargs tool_name arguments) = Except.error e →
      toolExecutorRun c backend tool_name arguments st =
        (st, [("success", JVal.bool false), ("error", JVal.str e)])) := by
  constructor
  · intro h
    simp [toolExecutorRun, hesc, h]
  · intro e hm hb
    simp [toolExecutorRun, hesc, hm, hb]

/-- A backend whose every tool raises an exception with message "boom". -/
def boomBackend : ToolBackend := fun _ _ => Except.error "boom"

/-- Witness for C5: the unknown name "frob" and a raising
`shopify_refund_order` both yield structured failure payloads. -/
theorem tool_executor_structured_failures_witness :
    ("frob" ∉ knownToolNames ∧
      toolExecutorRun sampleCustomer boomBackend "frob" [] (DBState.mk false [] [] []) =
        (DBState.mk false [] [] [],
         [("success", JVal.bool false), ("error", JVal.str ("Unknown tool: " ++ "frob"))])) ∧
    ("shopify_refund_order" ∈ knownToolNames ∧
      toolExecutorRun sampleCustomer boomBackend "shopify_refund_order" []
          (DBState.mk false [] [] []) =
        (DBState.mk false [] [] [],
         [("success", JVal.bool false), ("error", JVal.str "boom")])) :=
  ⟨⟨by decide,
    (tool_executor_structured_failures sampleCustomer boomBackend "frob" []
      (DBState.mk false [] [] []) (by decide)).1 (by decide)⟩,
   ⟨by decide,
    (tool_executor_structured_failures sampleCustomer boomBackend
      "shopify_refund_order" [] (DBState.mk false [] [] []) (by decide)).2
      "boom" (by decide) rfl⟩⟩

/-- Executing one response's tool calls only ever appends to the
`all_tool_calls` accumulator. -/
lemma execToolCalls_extends {σ : Type} (exec : String → JObj → σ → σ × JObj)
    (decode : String → Option JObj) :
    ∀ (tcs : List RawToolCall) (s : σ) (acc : List ToolCallRecord),
      ∃ recs, (execToolCalls exec decode tcs s acc).2 = acc ++ recs := by
  intro tcs
  induction tcs with
  | nil =>
      intro s acc
      exact ⟨[], by simp [execToolCalls]⟩
  | cons tc rest ih =>
      intro s acc
      unfold execToolCalls
      rcases hx : exec tc.name (decodeArgs decode tc.argumentsRaw) s with ⟨s1, out⟩
      obtain ⟨recs, hr⟩ := ih s1 (acc ++ [⟨tc.name, decodeArgs decode tc.argumentsRaw, out⟩])
      refine ⟨⟨tc.name, decodeArgs decode tc.argumentsRaw, out⟩ :: recs, ?_⟩
      simp only [hx]
      simpa [List.append_assoc] using hr

/-- If every model response requests tool calls, the gateway loop runs
out of fuel and returns the round-limit result, extending whatever was
already accumulated. -/
lemma callGptLoop_round_limit {σ : Type} (exec : String → JObj → σ → σ × JObj)
    (decode : String → Option JObj) (resps : Nat → ModelResponse)
    (h : ∀ j, (resps j).toolCalls ≠ []) :
    ∀ (fuel i : Nat) (acc : List ToolCallRecord) (s : σ),
      ∃ recs, (callGptLoop exec decode resps fuel i acc s).2 =
        ⟨"", acc ++ recs, some "Max tool rounds reached without final response."⟩ := by
  intro fuel
  induction fuel with
  | zero =>
      intro i acc s
      exact ⟨[], by simp [callGptLoop]⟩
  | succ fuel ih =>
      intro i acc s
      unfold callGptLoop
      rcases htc : (resps i).toolCalls with _ | ⟨tc, tcs⟩
      · exact absurd htc (h i)
      · rcases hx : execToolCalls exec decode (tc :: tcs) s acc with ⟨s1, acc1⟩
        obtain ⟨new, hnew⟩ := execToolCalls_extends exec decode (tc :: tcs) s acc
        rw [hx] at hnew
        have hnew1 : acc1 = acc ++ new := hnew
        obtain ⟨recs, hr⟩ := ih (i + 1) acc1 s1
        refine ⟨new ++ recs, ?_⟩
        simp only [hx]
        rw [hr, hnew1, List.append_assoc]

/-- Claim C6: when `max_tool_rounds` is exhausted without a
content-only model response, `call_gpt_with_tools` returns empty
content, the accumulated tool-call records and the explicit
round-limit error field — a normal return, not a raised failure. -/
theorem gateway_round_limit {σ : Type} (exec : String → JObj → σ → σ × JObj)
    (decode : String → Option JObj) (resps : Nat → ModelResponse)
    (max_tool_rounds : Nat) (s : σ)
    (h : ∀ j, (resps j).toolCalls ≠ []) :
    ∃ recs, (call_gpt_with_tools exec decode resps max_tool_rounds s).2 =
      ⟨"", recs, some "Max tool rounds reached without final response."⟩ := by
  obtain ⟨recs, hr⟩ := callGptLoop_round_limit exec decode resps h max_tool_rounds 0 [] s
  exact ⟨recs, by simpa [call_gpt_with_tools] using hr⟩

/-- A model that always requests the same single tool call. -/
def alwaysToolResps : Nat → ModelResponse :=
  fun _ => ⟨"", [⟨"shopify_get_order_details", "notjson"⟩]⟩

/-- A state-free executor used in gateway witnesses. -/
def unitExec : String → JObj → Unit → Unit × JObj := fun _ _ u => (u, [])

/-- Witness for C6 at five rounds of an always-tool-calling model. -/
theorem gateway_round_limit_witness :
    (∀ j, (alwaysToolResps j).toolCalls ≠ []) ∧
    ∃ recs, (call_gpt_with_tools unitExec (fun _ => none) alwaysToolResps 5 ()).2 =
      ⟨"", recs, some "Max tool rounds reached without final response."⟩ :=
  ⟨fun _ => by simp [alwaysToolResps],
   gateway_round_limit unitExec (fun _ => none) alwaysToolResps 5 ()
     (fun _ => by simp [alwaysToolResps])⟩

/-- Claim C7: a model-requested tool call whose arguments string fails
JSON decoding is executed anyway with the empty argument mapping: the
call is recorded with `arguments = \x7b\x7d`, the executor runs, and
the gateway loop simply proceeds to the next round — the decode
failure never aborts the turn. -/
theorem malformed_arguments_recovered {σ : Type}
    (exec : String → JObj → σ → σ × JObj) (decode : String → Option JObj)
    (resps : Nat → ModelResponse) (fuel i : Nat) (acc : List ToolCallRecord)
    (s : σ) (n raw : String)
    (h1 : raw ≠ "") (h2 : decode raw = none)
    (h3 : (resps i).toolCalls = [⟨n, raw⟩]) :
    callGptLoop exec decode resps (fuel + 1) i acc s =
      callGptLoop exec decode resps fuel (i + 1)
        (acc ++ [⟨n, [], (exec n [] s).2⟩]) ((exec n [] s).1) := by
  have hd : decodeArgs decode raw = [] := by simp [decodeArgs, h1, h2]
  rcases hx : exec n [] s with ⟨s1, out⟩
  conv_lhs => unfold callGptLoop
  rw [h3]
  simp [execToolCalls, hd, hx]

/-- Witness for C7: a single undecodable call is executed with empty
arguments and the loop steps on. -/
theorem malformed_arguments_recovered_witness :
    ("notjson" ≠ "" ∧ (fun (_ : String) => (none : Option JObj)) "notjson" = none ∧
      (alwaysToolResps 0).toolCalls = [⟨"shopify_get_order_details", "notjson"⟩]) ∧
    callGptLoop unitExec (fun _ => none) alwaysToolResps 1 0 [] () =
      callGptLoop unitExec (fun _ => none) alwaysToolResps 0 1
        [⟨"shopify_get_order_details", [],
          (unitExec "shopify_get_order_details" [] ()).2⟩]
        ((unitExec "shopify_get_order_details" [] ()).1) :=
  ⟨⟨by decide, rfl, rfl⟩,
   by
    have := malformed_arguments_recovered unitExec (fun _ => none) alwaysToolResps
      0 0 [] () "shopify_get_order_details" "notjson" (by decide) rfl rfl
    simpa using this⟩

/-- Claim C8: `LLMAgent.act` is silent exactly when the gateway result
has neither text content nor any tool call; otherwise it returns a
message with role `agent`, sender equal to the agent's name, and the
model's final text — or the `(no text output)` placeholder when only
tool calls were emitted. -/
theorem act_silence_characterization (agentName : String)
    (resps : Nat → ModelResponse) (decode : String → Option JObj)
    (backend : ToolBackend) (c : Customer) (history : List Message)
    (rs : RunState) :
    (((llmAgentAct agentName resps decode backend c) history rs).2 = none ↔
      ((call_gpt_with_tools (sessionExec c backend) decode resps 5 rs.db).2.content = "" ∧
        (call_gpt_with_tools (sessionExec c backend) decode resps 5 rs.db).2.tool_calls = [])) ∧
    (¬((call_gpt_with_tools (sessionExec c backend) decode resps 5 rs.db).2.content = "" ∧
        (call_gpt_with_tools (sessionExec c backend) decode resps 5 rs.db).2.tool_calls = []) →
      ((llmAgentAct agentName resps decode backend c) history rs).2 =
        some ⟨"agent",
          if (call_gpt_with_tools (sessionExec c backend) decode resps 5 rs.db).2.content = ""
          then "(no text output)"
          else (call_gpt_with_tools (sessionExec c backend) decode resps 5 rs.db).2.content,
          agentName,
          (call_gpt_with_tools (sessionExec c backend) decode resps 5 rs.db).2.tool_calls⟩) := by
  unfold llmAgentAct
  set g := (call_gpt_with_tools (sessionExec c backend) decode resps 5 rs.db).2 with hg
  by_cases hc : g.content = "" ∧ g.tool_calls.isEmpty = true
  · constructor
    · simp [hc, hc.1, List.isEmpty_iff.mp hc.2]
    · intro hn
      exact absurd ⟨hc.1, List.isEmpty_iff.mp hc.2⟩ hn
  · have hc2 : ¬(g.content = "" ∧ g.tool_calls = []) := by
      intro hx
      exact hc ⟨hx.1, List.isEmpty_iff.mpr hx.2⟩
    constructor
    · simp [hc, hc2]
    · intro _
      simp only [if_neg hc]

/-- A model behaviour that answers immediately with fixed text. -/
def plainTextResps (txt : String) : Nat → ModelResponse := fun _ => ⟨txt, []⟩

/-- Witness for C8: a content-only gateway result is returned verbatim
as an agent message from the named sender. -/
theorem act_silence_characterization_witness :
    ¬(((call_gpt_with_tools (sessionExec sampleCustomer boomBackend) (fun _ => none)
          (plainTextResps "All set!") 5 (DBState.mk false [] [] [])).2.content = "") ∧
        ((call_gpt_with_tools (sessionExec sampleCustomer boomBackend) (fun _ => none)
          (plainTextResps "All set!") 5 (DBState.mk false [] [] [])).2.tool_calls = [])) →
    ((llmAgentAct "ExecutorAgent" (plainTextResps "All set!") (fun _ => none)
        boomBackend sampleCustomer) [] ⟨DBState.mk false [] [] [], []⟩).2 =
      some ⟨"agent",
        if (call_gpt_with_tools (sessionExec sampleCustomer boomBackend) (fun _ => none)
              (plainTextResps "All set!") 5 (DBState.mk false [] [] [])).2.content = ""
        then "(no text output)"
        else (call_gpt_with_tools (sessionExec sampleCustomer boomBackend) (fun _ => none)
              (plainTextResps "All set!") 5 (DBState.mk false [] [] [])).2.content,
        "ExecutorAgent",
        (call_gpt_with_tools (sessionExec sampleCustomer boomBackend) (fun _ => none)
              (plainTextResps "All set!") 5 (DBState.mk false [] [] [])).2.tool_calls⟩ :=
  (act_silence_characterization "ExecutorAgent" (plainTextResps "All set!")
    (fun _ => none) boomBackend sampleCustomer [] ⟨DBState.mk false [] [] [], []⟩).2

/-- `_tool_executor` never touches the `session_messages` log. -/
lemma toolExecutorRun_messages (c : Customer) (backend : ToolBackend)
    (tool_name : String) (arguments : JObj) (st : DBState) :
    ((toolExecutorRun c backend tool_name arguments st).1).messages = st.messages := by
  unfold toolExecutorRun
  split
  · rfl
  · split
    · rfl
    · cases hb : backend tool_name (normalizeKwargs tool_name arguments) <;> simp [hb]

/-- The `executor` closure of `reply` never touches the message log. -/
lemma sessionExec_messages (c : Customer) (backend : ToolBackend)
    (name : String) (args : JObj) (st : DBState) :
    ((sessionExec c backend name args st).1).messages = st.messages := by
  unfold sessionExec
  rcases hx : toolExecutorRun c backend name args st with ⟨st1, out⟩
  have := toolExecutorRun_messages c backend name args st
  rw [hx] at this
  simpa using this

/-- Executing a batch of tool calls preserves any state observation
that each single execution preserves. -/
lemma execToolCalls_pres {σ α : Type} (f : σ → α)
    (exec : String → JObj → σ → σ × JObj) (decode : String → Option JObj)
    (hE : ∀ n a s, f ((exec n a s).1) = f s) :
    ∀ (tcs : List RawToolCall) (s : σ) (acc : List ToolCallRecord),
      f ((execToolCalls exec decode tcs s acc).1) = f s := by
  intro tcs
  induction tcs with
  | nil => intro s acc; simp [execToolCalls]
  | cons tc rest ih =>
      intro s acc
      unfold execToolCalls
      exact (ih ((exec tc.name (decodeArgs decode tc.argumentsRaw) s).1) _).trans
        (hE tc.name (decodeArgs decode tc.argumentsRaw) s)

/-- The gateway loop preserves any state observation preserved by the
executor. -/
lemma callGptLoop_pres {σ α : Type} (f : σ → α)
    (exec : String → JObj → σ → σ × JObj) (decode : String → Option JObj)
    (resps : Nat → ModelResponse)
    (hE : ∀ n a s, f ((exec n a s).1) = f s) :
    ∀ (fuel i : Nat) (acc : List ToolCallRecord) (s : σ),
      f ((callGptLoop exec decode resps fuel i acc s).1) = f s := by
  intro fuel
  induction fuel with
  | zero => intro i acc s; simp [callGptLoop]
  | succ fuel ih =>
      intro i acc s
      unfold callGptLoop
      rcases htc : (resps i).toolCalls with _ | ⟨tc, tcs⟩
      · rfl
      · exact (ih (i + 1) ((execToolCalls exec decode (tc :: tcs) s acc).2)
          ((execToolCalls exec decode (tc :: tcs) s acc).1)).trans
          (execToolCalls_pres f exec decode hE (tc :: tcs) s acc)

/-- An agent turn (`LLMAgent.act`) never touches the message log. -/
lemma llmAgentAct_messages (agentName : String) (resps : Nat → ModelResponse)
    (decode : String → Option JObj) (backend : ToolBackend) (c : Customer)
    (history : List Message) (rs : RunState) :
    ((((llmAgentAct agentName resps decode backend c) history rs).1)).db.messages =
      rs.db.messages := by
  have h : ((call_gpt_with_tools (sessionExec c backend) decode resps 5 rs.db).1).messages =
      rs.db.messages := by
    unfold call_gpt_with_tools
    exact callGptLoop_pres (fun st => st.messages) (sessionExec c backend) decode
      resps (fun n a s => sessionExec_messages c backend n a s) 5 0 [] rs.db
  simp only [llmAgentAct]
  split <;> exact h

/-- One coordinator round preserves any preserved state observation. -/
lemma runAgentsOnce_pres {σ α : Type} (f : σ → α) (agents : List (AgentF σ))
    (h : ∀ a ∈ agents, ∀ hist s, f ((a hist s).1) = f s) :
    ∀ (msgs : List Message) (s : σ), f ((runAgentsOnce agents msgs s).1) = f s := by
  induction agents with
  | nil => intro msgs s; simp [runAgentsOnce]
  | cons a rest ih =>
      intro msgs s
      unfold runAgentsOnce
      rcases hx : a msgs s with ⟨s1, r⟩
      have h1 : f s1 = f s := by
        have := h a (List.mem_cons_self a rest) msgs s
        rw [hx] at this
        exact this
      have hrest := ih (fun a' ha' => h a' (List.mem_cons_of_mem a ha'))
      cases r with
      | none => simpa using (hrest msgs s1).trans h1
      | some m =>
          rcases hy : runAgentsOnce rest (msgs ++ [m]) s1 with ⟨s2, msgs2, any⟩
          have h2 : f s2 = f s1 := by
            have := hrest (msgs ++ [m]) s1
            rw [hy] at this
            exact this
          simpa [hy] using h2.trans h1

/-- The round loop preserves any preserved state observation. -/
lemma masLoop_pres {σ α : Type} (f : σ → α) (agents : List (AgentF σ))
    (h : ∀ a ∈ agents, ∀ hist s, f ((a hist s).1) = f s) :
    ∀ (n : Nat) (msgs : List Message) (s : σ),
      f ((masLoop agents n msgs s).1) = f s := by
  intro n
  induction n with
  | zero => intro msgs s; simp [masLoop]
  | succ n ih =>
      intro msgs s
      unfold masLoop
      rcases hx : runAgentsOnce agents msgs s with ⟨s1, msgs1, any⟩
      have h1 : f s1 = f s := by
        have := runAgentsOnce_pres f agents h msgs s
        rw [hx] at this
        exact this
      cases any with
      | false => simpa using h1
      | true => simpa using (ih msgs1 s1).trans h1

/-- The three pipeline agents never touch the message log during the
round: the only `session_messages` writes in `reply` happen before and
after the coordinator round. -/
lemma replyRound_messages (o : RoundOracle) (c : Customer)
    (customer_message : String) (st1 : DBState) :
    (((replyRound o c customer_message st1).1)).db.messages = st1.messages := by
  unfold replyRound masRun
  exact masLoop_pres (fun rs => rs.db.messages) (replyAgents o c)
    (by
      intro a ha hist s
      simp only [replyAgents, List.mem_cons, List.mem_singleton] at ha
      rcases ha with h1 | h1 | h1 | h1
      · rw [h1]; exact llmAgentAct_messages _ _ _ _ _ hist s
      · rw [h1]; exact llmAgentAct_messages _ _ _ _ _ hist s
      · rw [h1]; exact llmAgentAct_messages _ _ _ _ _ hist s
      · exact absurd h1 (List.not_mem_nil a)) 1 _ _

/-- Claim C4: on a non-escalated session, `reply(X)` persists the
inbound customer message as a `user`-role row immediately after the
prior log, before any agent acts (the round itself never writes to the
message log), and the row is there for every model/tool behaviour —
whatever the pipeline later does. -/
theorem customer_message_persisted (o : RoundOracle) (c : Customer)
    (msg : String) (st : DBState) (h : st.escalated = false) :
    ∃ tail, ((reply o c msg st).1).messages =
      st.messages ++ MsgRow.mk "user" msg "customer" :: tail := by
  unfold reply
  rw [if_neg (by simp [h])]
  have hm := replyRound_messages o c msg (DBState.addMessage st "user" msg "customer")
  by_cases hesc : (((replyRound o c msg (DBState.addMessage st "user" msg "customer")).1)).db.escalated = true
  · refine ⟨[⟨"assistant", escalationAck, "agent"⟩], ?_⟩
    simp only [hesc, if_true]
    rw [DBState.addMessage_messages, hm, DBState.addMessage_messages]
    simp [List.append_assoc]
  · rw [Bool.not_eq_true] at hesc
    refine ⟨[⟨"assistant",
      selectFinalContent ((replyRound o c msg (DBState.addMessage st "user" msg "customer")).2),
      "agent"⟩], ?_⟩
    simp only [hesc, Bool.false_eq_true, if_false]
    rw [DBState.addMessage_messages, hm, DBState.addMessage_messages]
    simp [List.append_assoc]

/-- Witness for C4 at a fresh session and the trivial behaviour. -/
theorem customer_message_persisted_witness :
    (DBState.mk false [] [] []).escalated = false ∧
    ∃ tail, ((reply trivialOracle sampleCustomer "Where is my order?"
        (DBState.mk false [] [] [])).1).messages =
      (DBState.mk false [] [] []).messages ++
        MsgRow.mk "user" "Where is my order?" "customer" :: tail :=
  ⟨rfl, customer_message_persisted trivialOracle sampleCustomer
    "Where is my order?" (DBState.mk false [] [] []) rfl⟩

/-- Claim C3: when the session becomes escalated during the round, the
returned trace's `final_message` is exactly the fixed canned
acknowledgment (never agent-authored text), that acknowledgment is the
assistant row persisted by the call, and `actions_taken` is
`"escalated_to_human"` followed by one `escalate: <reason>` entry per
escalate tool call in the collector. -/
theorem escalation_canned_ack (o : RoundOracle) (c : Customer) (msg : String)
    (st : DBState) (h : st.escalated = false)
    (h2 : ((replyRound o c msg (DBState.addMessage st "user" msg "customer")).1).db.escalated = true) :
    (reply o c msg st).2 = some
      ⟨escalationAck,
       ((replyRound o c msg (DBState.addMessage st "user" msg "customer")).1).collector,
       "escalated_to_human" ::
         (((replyRound o c msg (DBState.addMessage st "user" msg "customer")).1).collector.filter
             (fun tc => tc.name = "escalate")).map
           (fun tc => "escalate: " ++ (JObj.getD tc.arguments "reason" (JVal.str "")).pyStr)⟩ ∧
    ((reply o c msg st).1).messages =
      (((replyRound o c msg (DBState.addMessage st "user" msg "customer")).1).db).messages ++
        [⟨"assistant", escalationAck, "agent"⟩] := by
  constructor
  · unfold reply
    rw [if_neg (by simp [h])]
    simp only [h2, if_true]
    rfl
  · unfold reply
    rw [if_neg (by simp [h])]
    simp only [h2, if_true]
    rw [DBState.addMessage_messages]

/-- A behaviour in which the Router's first model response calls the
`escalate` tool with a decodable reason, then answers; Policy and
Executor stay silent. -/
def escalatingOracle : RoundOracle :=
  ⟨fun i => if i = 0 then ⟨"", [⟨"escalate", "ARGS"⟩]⟩ else ⟨"Done.", []⟩,
   fun _ => {}, fun _ => {},
   fun _ _ => Except.ok [],
   fun s => if s = "ARGS" then
       some [("reason", JVal.str "Out of scope"),
             ("summary_for_team", JVal.str "Customer: Test. Reason: Out of scope.")]
     else none⟩

/-- Witness for C3: a concrete escalating round produces the canned
acknowledgment and the structured `actions_taken`. -/
theorem escalation_canned_ack_witness :
    (DBState.mk false [] [] []).escalated = false ∧
    ((replyRound escalatingOracle sampleCustomer "Something weird happened."
        (DBState.addMessage (DBState.mk false [] [] []) "user"
          "Something weird happened." "customer")).1).db.escalated = true ∧
    ((reply escalatingOracle sampleCustomer "Something weird happened."
        (DBState.mk false [] [] [])).2 = some
      ⟨escalationAck,
       ((replyRound escalatingOracle sampleCustomer "Something weird happened."
          (DBState.addMessage (DBState.mk false [] [] []) "user"
            "Something weird happened." "customer")).1).collector,
       "escalated_to_human" ::
         (((replyRound escalatingOracle sampleCustomer "Something weird happened."
              (DBState.addMessage (DBState.mk false [] [] []) "user"
                "Something weird happened." "customer")).1).collector.filter
             (fun tc => tc.name = "escalate")).map
           (fun tc => "escalate: " ++ (JObj.getD tc.arguments "reason" (JVal.str "")).pyStr)⟩ ∧
      ((reply escalatingOracle sampleCustomer "Something weird happened."
          (DBState.mk false [] [] [])).1).messages =
        (((replyRound escalatingOracle sampleCustomer "Something weird happened."
            (DBState.addMessage (DBState.mk false [] [] []) "user"
              "Something weird happened." "customer")).1).db).messages ++
          [⟨"assistant", escalationAck, "agent"⟩]) :=
  ⟨rfl, rfl,
   escalation_canned_ack escalatingOracle sampleCustomer "Something weird happened."
     (DBState.mk false [] [] []) rfl rfl⟩

/-- Modelled from the spec: the Executor agent's final non-placeholder
message — scan the round's output in reverse and take the first
Executor message whose content is neither empty nor the placeholder. -/
def lastExecutorReply? (history : List Message) : Option String :=
  (history.reverse.find? (fun m =>
      m.sender = "ExecutorAgent" ∧ m.content ≠ "" ∧ m.content ≠ "(no text output)")).map
    (fun m => m.content)

/-- Modelled from the spec (as amended): the customer-facing final
message is the Executor's last non-placeholder message; if no such
message exists it is the last message of the round; the apology
only ever applies to an empty round history. -/
def selectFinalSpec (history : List Message) : String :=
  match lastExecutorReply? history with
  | some content => content
  | none =>
      match history.getLast? with
      | some m => m.content
      | none => "I apologize, I couldn't process that. Please try again."

/-- Claim C2, counterexample: on a fresh non-escalated session, with
every agent silent (the model yields neither text nor tool calls), the
trace's `final_message` is the just-seeded customer message `"hi"` —
the last message of the round — and not the generic apology the claim
requires for a silent round. -/
theorem silent_round_final_message_not_apology :
    (reply trivialOracle sampleCustomer "hi" (DBState.mk false [] [] [])).2 =
      some ⟨"hi", [], []⟩ ∧
    "hi" ≠ "I apologize, I couldn't process that. Please try again." :=
  ⟨rfl, by decide⟩

/-- An agent turn either stays silent or yields a message carrying the
agent's own name as sender and a non-empty content (the placeholder is
substituted for empty text). -/
lemma llmAgentAct_shape (agentName : String) (resps : Nat → ModelResponse)
    (decode : String → Option JObj) (backend : ToolBackend) (c : Customer)
    (history : List Message) (rs : RunState) :
    (((llmAgentAct agentName resps decode backend c) history rs).2 = none) ∨
    (∃ m, (((llmAgentAct agentName resps decode backend c) history rs).2 = some m) ∧
      m.sender = agentName ∧ m.content ≠ "") := by
  simp only [llmAgentAct]
  split
  · left; rfl
  · right
    refine ⟨_, rfl, rfl, ?_⟩
    dsimp only
    split
    · intro hx
      simp at hx
    · next hc => exact hc

/-- The head agent's step of one round, written with projections. -/
lemma runAgentsOnce_cons {σ : Type} (a : AgentF σ) (rest : List (AgentF σ))
    (msgs : List Message) (s : σ) :
    runAgentsOnce (a :: rest) msgs s =
      match (a msgs s).2 with
      | some m =>
          ((runAgentsOnce rest (msgs ++ [m]) ((a msgs s).1)).1,
           ((runAgentsOnce rest (msgs ++ [m]) ((a msgs s).1)).2).1, true)
      | none => runAgentsOnce rest msgs ((a msgs s).1) := by
  conv_lhs => unfold runAgentsOnce
  rcases hx : a msgs s with ⟨s1, r⟩
  cases r with
  | none => simp
  | some m =>
      rcases hy : runAgentsOnce rest (msgs ++ [m]) s1 with ⟨s2, msgs2, any⟩
      simp [hy]

/-- Agents in a concatenated list act sequentially: the second block
continues from the first block's history and state. -/
lemma runAgentsOnce_append_agents {σ : Type} (l1 l2 : List (AgentF σ)) :
    ∀ (msgs : List Message) (s : σ),
      ((runAgentsOnce (l1 ++ l2) msgs s).2).1 =
        ((runAgentsOnce l2 (((runAgentsOnce l1 msgs s).2).1)
          ((runAgentsOnce l1 msgs s).1)).2).1 := by
  induction l1 with
  | nil => intro msgs s; simp [runAgentsOnce]
  | cons a rest ih =>
      intro msgs s
      rw [List.cons_append, runAgentsOnce_cons, runAgentsOnce_cons]
      cases hr : (a msgs s).2 with
      | none =>
          simp only
          exact ih msgs ((a msgs s).1)
      | some m =>
          simp only
          exact ih (msgs ++ [m]) ((a msgs s).1)

/-- Every message in a round's output either was already in the input
history or satisfies any property guaranteed for each agent's output. -/
lemma runAgentsOnce_mem {σ : Type} (agents : List (AgentF σ)) (P : Message → Prop)
    (hA : ∀ a ∈ agents, ∀ hist s m, (a hist s).2 = some m → P m) :
    ∀ (msgs : List Message) (s : σ) (m : Message),
      m ∈ ((runAgentsOnce agents msgs s).2).1 → m ∈ msgs ∨ P m := by
  induction agents with
  | nil =>
      intro msgs s m hm
      simp [runAgentsOnce] at hm
      exact Or.inl hm
  | cons a rest ih =>
      intro msgs s m hm
      have hrest := ih (fun a' ha' => hA a' (List.mem_cons_of_mem a ha'))
      rw [runAgentsOnce_cons] at hm
      cases hr : (a msgs s).2 with
      | none =>
          rw [hr] at hm
          exact hrest msgs ((a msgs s).1) m hm
      | some m0 =>
          simp only [hr] at hm
          rcases hrest (msgs ++ [m0]) ((a msgs s).1) m hm with hmem | hp
          · rcases List.mem_append.mp hmem with h1 | h1
            · exact Or.inl h1
            · right
              have hm0 : m = m0 := by simpa using h1
              exact hA a (List.mem_cons_self a rest) msgs s m (hm0 ▸ hr)
          · exact Or.inr hp

/-- One iteration of the round loop (`max_turns = 1`, the production
configuration) is exactly one round. -/
lemma masLoop_one {σ : Type} (agents : List (AgentF σ)) (msgs : List Message) (s : σ) :
    masLoop agents 1 msgs s =
      ((runAgentsOnce agents msgs s).1, ((runAgentsOnce agents msgs s).2).1) := by
  unfold masLoop
  rcases hx : runAgentsOnce agents msgs s with ⟨s1, msgs1, any⟩
  cases any <;> simp [masLoop]

/-- Messages rebuilt from persisted history carry sender `customer`
or `agent`. -/
lemma initialFromRows_sender (rows : List MsgRow) :
    ∀ m ∈ initialFromRows rows, m.sender = "customer" ∨ m.sender = "agent" := by
  intro m hm
  unfold initialFromRows at hm
  rw [List.mem_filterMap] at hm
  obtain ⟨r, _, hr⟩ := hm
  by_cases h1 : r.role = "user"
  · simp [h1] at hr
    left
    rw [← hr]
  · by_cases h2 : r.role = "assistant"
    · simp [h1, h2] at hr
      right
      rw [← hr]
    · simp [h1, h2] at hr

/-- No seeded message (system, rebuilt history, or the new customer
message) carries the Executor agent's name as sender. -/
lemma seeded_sender_ne_executor (rows : List MsgRow) (msg : String) :
    ∀ m ∈ systemSeedMessage :: initialFromRows rows ++ [userSeedMessage msg],
      m.sender ≠ "ExecutorAgent" := by
  intro m hm
  rcases List.mem_cons.mp hm with h | h
  · rw [h]
    intro hx
    simp [systemSeedMessage] at hx
  · rcases List.mem_append.mp h with h1 | h1
    · rcases initialFromRows_sender rows m h1 with h2 | h2 <;> rw [h2] <;> decide
    · have : m = userSeedMessage msg := by simpa using h1
      rw [this]
      intro hx
      simp [userSeedMessage] at hx

/-- The reverse scan leaves the accumulator untouched over messages
that are not Executor messages with truthy content. -/
lemma scan_no_match (l : List Message)
    (h : ∀ m ∈ l, ¬(m.sender = "ExecutorAgent" ∧ m.content ≠ "")) :
    ∀ acc, scanForExecutorContent l acc = acc := by
  induction l with
  | nil => intro acc; rfl
  | cons m rest ih =>
      intro acc
      conv_lhs => unfold scanForExecutorContent
      rw [if_neg (h m (List.mem_cons_self m rest))]
      exact ih (fun m' hm' => h m' (List.mem_cons_of_mem m hm')) acc

/-- The reverse scan at an Executor message with truthy content. -/
lemma scan_cons_exec (m : Message) (rest : List Message) (acc : String)
    (hs : m.sender = "ExecutorAgent") (hc : m.content ≠ "") :
    scanForExecutorContent (m :: rest) acc =
      if m.content ≠ "(no text output)" then m.content
      else scanForExecutorContent rest m.content := by
  conv_lhs => unfold scanForExecutorContent
  rw [if_pos ⟨hs, hc⟩]

/-- On any round history in which Executor messages with truthy
content appear at most as the final message, the selection implemented
by `reply` agrees with the spec-side selection. -/
lemma selectFinalContent_eq_spec (history : List Message)
    (hcase :
      (∀ m ∈ history, ¬(m.sender = "ExecutorAgent" ∧ m.content ≠ "")) ∨
      (∃ pre m, history = pre ++ [m] ∧ m.sender = "ExecutorAgent" ∧ m.content ≠ "" ∧
        ∀ m' ∈ pre, ¬(m'.sender = "ExecutorAgent" ∧ m'.content ≠ ""))) :
    selectFinalContent history = selectFinalSpec history := by
  rcases hcase with hno | ⟨pre, m, hsplit, hsender, hcont, hpre⟩
  · have hscan : scanForExecutorContent history.reverse "" = "" :=
      scan_no_match history.reverse
        (fun m hm => hno m (List.mem_reverse.mp hm)) ""
    have hfind : (history.reverse.find? (fun m =>
        m.sender = "ExecutorAgent" ∧ m.content ≠ "" ∧
          m.content ≠ "(no text output)")) = none := by
      rw [List.find?_eq_none]
      intro x hx
      simp only [decide_eq_true_eq]
      rintro ⟨h1, h2, -⟩
      exact hno x (List.mem_reverse.mp hx) ⟨h1, h2⟩
    unfold selectFinalContent selectFinalSpec lastExecutorReply?
    rw [hscan, hfind]
    simp
  · subst hsplit
    have hrev : (pre ++ [m]).reverse = m :: pre.reverse := by simp
    have hpre' : ∀ m' ∈ pre.reverse, ¬(m'.sender = "ExecutorAgent" ∧ m'.content ≠ "") :=
      fun m' hm' => hpre m' (List.mem_reverse.mp hm')
    by_cases hph : m.content = "(no text output)"
    · have hscan : scanForExecutorContent (pre ++ [m]).reverse "" = m.content := by
        rw [hrev, scan_cons_exec m pre.reverse "" hsender hcont]
        rw [if_neg (by simpa using hph)]
        exact scan_no_match pre.reverse hpre' m.content
      have hfind : ((pre ++ [m]).reverse.find? (fun m =>
          m.sender = "ExecutorAgent" ∧ m.content ≠ "" ∧
            m.content ≠ "(no text output)")) = none := by
        rw [List.find?_eq_none]
        intro x hx
        simp only [decide_eq_true_eq]
        rintro ⟨h1, h2, h3⟩
        rw [hrev] at hx
        rcases List.mem_cons.mp hx with h4 | h4
        · exact h3 (h4 ▸ hph)
        · exact hpre' x h4 ⟨h1, h2⟩
      unfold selectFinalContent selectFinalSpec lastExecutorReply?
      rw [hscan, hfind, if_neg hcont, List.getLast?_concat]
      rfl
    · have hscan : scanForExecutorContent (pre ++ [m]).reverse "" = m.content := by
        rw [hrev, scan_cons_exec m pre.reverse "" hsender hcont]
        rw [if_pos hph]
      have hfind : ((pre ++ [m]).reverse.find? (fun m =>
          m.sender = "ExecutorAgent" ∧ m.content ≠ "" ∧
            m.content ≠ "(no text output)")) = some m := by
        rw [hrev, List.find?_cons]
        have : (fun (m : Message) =>
            decide (m.sender = "ExecutorAgent" ∧ m.content ≠ "" ∧
              m.content ≠ "(no text output)")) m = true := by
          simp only [decide_eq_true_eq]
          exact ⟨hsender, hcont, hph⟩
        simp [this]
      unfold selectFinalContent selectFinalSpec lastExecutorReply?
      rw [hscan, hfind, if_neg hcont]
      rfl

/-- A non-silent agent turn yields a message with the agent's own name
and non-empty content. -/
lemma llmAgentAct_some (agentName : String) (resps : Nat → ModelResponse)
    (decode : String → Option JObj) (backend : ToolBackend) (c : Customer)
    (history : List Message) (rs : RunState) (m : Message)
    (hm : (((llmAgentAct agentName resps decode backend c) history rs).2 = some m)) :
    m.sender = agentName ∧ m.content ≠ "" := by
  rcases llmAgentAct_shape agentName resps decode backend c history rs with h | ⟨m', hm', hs, hc⟩
  · rw [hm] at h
    cases h
  · rw [hm] at hm'
    obtain rfl : m = m' := Option.some.inj hm'
    exact ⟨hs, hc⟩

/-- The history produced by `reply`'s single round: it is never empty,
and any Executor-sent message with truthy content can only be the
final message of the round (the Executor acts last and at most
once). -/
lemma replyRound_history_cases (o : RoundOracle) (c : Customer) (msg : String)
    (st1 : DBState) :
    (replyRound o c msg st1).2 ≠ [] ∧
    ((∀ m ∈ (replyRound o c msg st1).2,
        ¬(m.sender = "ExecutorAgent" ∧ m.content ≠ "")) ∨
     (∃ pre m, (replyRound o c msg st1).2 = pre ++ [m] ∧
        m.sender = "ExecutorAgent" ∧ m.content ≠ "" ∧
        ∀ m' ∈ pre, ¬(m'.sender = "ExecutorAgent" ∧ m'.content ≠ ""))) := by
  have hhist : (replyRound o c msg st1).2 =
      ((runAgentsOnce (replyAgents o c)
        (systemSeedMessage :: initialFromRows st1.messages.dropLast ++
          [userSeedMessage msg])
        (⟨st1, []⟩ : RunState)).2).1 := by
    unfold replyRound masRun
    rw [masLoop_one]
  have hagents : replyAgents o c =
      [llmAgentAct "RouterAgent" o.router o.decode o.backend c,
       llmAgentAct "PolicyAgent" o.policy o.decode o.backend c] ++
      [llmAgentAct "ExecutorAgent" o.executor o.decode o.backend c] := rfl
  rw [hagents, runAgentsOnce_append_agents] at hhist
  have hmem : ∀ m ∈ ((runAgentsOnce
      [llmAgentAct "RouterAgent" o.router o.decode o.backend c,
       llmAgentAct "PolicyAgent" o.policy o.decode o.backend c]
      (systemSeedMessage :: initialFromRows st1.messages.dropLast ++
        [userSeedMessage msg]) (⟨st1, []⟩ : RunState)).2).1,
      m.sender ≠ "ExecutorAgent" := by
    intro m hm
    have := runAgentsOnce_mem
      [llmAgentAct "RouterAgent" o.router o.decode o.backend c,
       llmAgentAct "PolicyAgent" o.policy o.decode o.backend c]
      (fun m => m.sender = "RouterAgent" ∨ m.sender = "PolicyAgent")
      (by
        intro a ha hist s m' hsome
        rcases List.mem_cons.mp ha with h1 | h1
        · left
          exact (llmAgentAct_some "RouterAgent" o.router o.decode o.backend c
            hist s m' (by rw [← h1]; exact hsome)).1
        · have h2 : a = llmAgentAct "PolicyAgent" o.policy o.decode o.backend c := by
            simpa using h1
          right
          exact (llmAgentAct_some "PolicyAgent" o.policy o.decode o.backend c
            hist s m' (by rw [← h2]; exact hsome)).1)
      _ _ m hm
    rcases this with hseed | hnames
    · exact seeded_sender_ne_executor st1.messages.dropLast msg m hseed
    · rcases hnames with h1 | h1 <;> rw [h1] <;> decide
  have hne : ((runAgentsOnce
      [llmAgentAct "RouterAgent" o.router o.decode o.backend c,
       llmAgentAct "PolicyAgent" o.policy o.decode o.backend c]
      (systemSeedMessage :: initialFromRows st1.messages.dropLast ++
        [userSeedMessage msg]) (⟨st1, []⟩ : RunState)).2).1 ≠ [] := by
    obtain ⟨extra, hex⟩ := runAgentsOnce_append
      [llmAgentAct "RouterAgent" o.router o.decode o.backend c,
       llmAgentAct "PolicyAgent" o.policy o.decode o.backend c]
      (systemSeedMessage :: initialFromRows st1.messages.dropLast ++
        [userSeedMessage msg]) (⟨st1, []⟩ : RunState)
    rw [hex]
    simp
  rw [runAgentsOnce_cons] at hhist
  cases hr : (llmAgentAct "ExecutorAgent" o.executor o.decode o.backend c
      (((runAgentsOnce
        [llmAgentAct "RouterAgent" o.router o.decode o.backend c,
         llmAgentAct "PolicyAgent" o.policy o.decode o.backend c]
        (systemSeedMessage :: initialFromRows st1.messages.dropLast ++
          [userSeedMessage msg]) (⟨st1, []⟩ : RunState)).2).1)
      ((runAgentsOnce
        [llmAgentAct "RouterAgent" o.router o.decode o.backend c,
         llmAgentAct "PolicyAgent" o.policy o.decode o.backend c]
        (systemSeedMessage :: initialFromRows st1.messages.dropLast ++
          [userSeedMessage msg]) (⟨st1, []⟩ : RunState)).1)).2 with
  | none =>
      rw [hr] at hhist
      simp only [runAgentsOnce] at hhist
      refine ⟨by rw [hhist]; exact hne, Or.inl ?_⟩
      rw [hhist]
      exact fun m hm h => hmem m hm h.1
  | some m =>
      have hsp := llmAgentAct_some "ExecutorAgent" o.executor o.decode o.backend c
        _ _ m hr
      rw [hr] at hhist
      simp only [runAgentsOnce] at hhist
      refine ⟨by rw [hhist]; simp, Or.inr ⟨_, m, hhist, hsp.1, hsp.2, ?_⟩⟩
      exact fun m' hm' h => hmem m' hm' h.1

/-- On a silent round the spec-side selection returns the seeded
customer message (the last message of the round). -/
lemma selectFinalSpec_seeded (rows : List MsgRow) (msg : String) :
    selectFinalSpec (systemSeedMessage :: initialFromRows rows ++
      [userSeedMessage msg]) = msg := by
  unfold selectFinalSpec lastExecutorReply?
  have hfind : ((systemSeedMessage :: initialFromRows rows ++
      [userSeedMessage msg]).reverse.find?
      (fun m => m.sender = "ExecutorAgent" ∧ m.content ≠ "" ∧
        m.content ≠ "(no text output)")) = none := by
    rw [List.find?_eq_none]
    intro x hx
    simp only [decide_eq_true_eq]
    rintro ⟨h1, -, -⟩
    exact seeded_sender_ne_executor rows msg x (List.mem_reverse.mp hx) h1
  rw [hfind]
  have hlast : (systemSeedMessage :: initialFromRows rows ++
      [userSeedMessage msg]).getLast? = some (userSeedMessage msg) := by
    rw [show systemSeedMessage :: initialFromRows rows ++ [userSeedMessage msg] =
        (systemSeedMessage :: initialFromRows rows) ++ [userSeedMessage msg] from rfl,
      List.getLast?_concat]
  rw [hlast]
  rfl

/-- Claim C2 (amended): for every non-escalated `reply` call the trace
exists and its `final_message` is the Executor agent's last
non-placeholder message (scanning the round in reverse and skipping
the `(no text output)` placeholder); if no such message exists it is
the last message of the round.  The round history always contains at
least the seeded system and customer messages, so the generic apology
is unreachable; in particular, when every agent is silent the
`final_message` is the just-seeded customer message itself (possibly
empty), not the apology. -/
theorem final_message_selection (o : RoundOracle) (c : Customer) (msg : String)
    (st : DBState) (h : st.escalated = false)
    (h2 : ((replyRound o c msg (DBState.addMessage st "user" msg "customer")).1).db.escalated = false) :
    ∃ t, (reply o c msg st).2 = some t ∧
      t.final_message =
        selectFinalSpec ((replyRound o c msg (DBState.addMessage st "user" msg "customer")).2) ∧
      (replyRound o c msg (DBState.addMessage st "user" msg "customer")).2 ≠ [] ∧
      ((replyRound o c msg (DBState.addMessage st "user" msg "customer")).2 =
          systemSeedMessage ::
            initialFromRows (DBState.addMessage st "user" msg "customer").messages.dropLast ++
            [userSeedMessage msg] →
        t.final_message = msg) := by
  have hcases := replyRound_history_cases o c msg (DBState.addMessage st "user" msg "customer")
  have hsel := selectFinalContent_eq_spec _ hcases.2
  refine ⟨⟨selectFinalContent ((replyRound o c msg (DBState.addMessage st "user" msg "customer")).2),
    ((replyRound o c msg (DBState.addMessage st "user" msg "customer")).1).collector,
    nonEscalateActions ((replyRound o c msg (DBState.addMessage st "user" msg "customer")).1).collector⟩,
    ?_, ?_, ?_, ?_⟩
  · unfold reply
    rw [if_neg (by simp [h])]
    simp only [h2, Bool.false_eq_true, if_false]
  · exact hsel
  · exact hcases.1
  · intro hsil
    show selectFinalContent _ = msg
    rw [hsel, hsil]
    exact selectFinalSpec_seeded _ msg

/-- A behaviour in which Router and Policy stay silent and the
Executor answers with plain text. -/
def executorTextOracle : RoundOracle :=
  ⟨fun _ => {}, fun _ => {},
   fun _ => ⟨"Thanks for reaching out! Your order is on the way.", []⟩,
   fun _ _ => Except.ok [], fun _ => none⟩

/-- Witness for the amended C2 at a fresh session where the Executor
produces a text reply. -/
theorem final_message_selection_witness :
    (DBState.mk false [] [] []).escalated = false ∧
    ((replyRound executorTextOracle sampleCustomer "Where is my order?"
        (DBState.addMessage (DBState.mk false [] [] []) "user" "Where is my order?"
          "customer")).1).db.escalated = false ∧
    ∃ t, (reply executorTextOracle sampleCustomer "Where is my order?"
        (DBState.mk false [] [] [])).2 = some t ∧
      t.final_message =
        selectFinalSpec ((replyRound executorTextOracle sampleCustomer "Where is my order?"
          (DBState.addMessage (DBState.mk false [] [] []) "user" "Where is my order?"
            "customer")).2) ∧
      (replyRound executorTextOracle sampleCustomer "Where is my order?"
        (DBState.addMessage (DBState.mk false [] [] []) "user" "Where is my order?"
          "customer")).2 ≠ [] ∧
      ((replyRound executorTextOracle sampleCustomer "Where is my order?"
          (DBState.addMessage (DBState.mk false [] [] []) "user" "Where is my order?"
            "customer")).2 =
          systemSeedMessage ::
            initialFromRows (DBState.addMessage (DBState.mk false [] [] []) "user"
              "Where is my order?" "customer").messages.dropLast ++
            [userSeedMessage "Where is my order?"] →
        t.final_message = "Where is my order?") :=
  ⟨rfl, rfl,
   final_message_selection executorTextOracle sampleCustomer "Where is my order?"
     (DBState.mk false [] [] []) rfl rfl⟩
